import Mathlib

/-!
Verification development for the aya eBPF object-file library.

The first part models the CO-RE (Compile-Once-Run-Everywhere) relocation
engine described by the repository's specification: the BTF type graph, the
access-spec resolver, target type matching, value computation, instruction
patching and the poison-on-mismatch policy.  The engine's own source is not
part of the source snapshot (only its integration tests are), so those
definitions are modelled from the specification text and are marked as such.

The second part is a direct shallow embedding of the library code that is in
the snapshot: `CgroupSockAttachType` (aya-obj/src/programs/cgroup_sock.rs)
and the `LpmTrie` map accessors (aya/src/maps/lpm_trie.rs).
-/

deriving instance DecidableEq for Except

namespace Aya

/-- Modelled from the spec: a struct/union member record
{name, referenced type id, bit offset} (spec 3, TypeNode). -/
structure BtfMember where
  name : String
  typeId : Nat
  bitOffset : Nat
deriving DecidableEq

/-- Modelled from the spec: an enum member {name, signed value} (spec 3). -/
structure BtfEnumVariant where
  name : String
  value : Int
deriving DecidableEq

/-- Modelled from the spec: a type node, a tagged variant over the kind set
{Void, Integer, Pointer, Array, Struct, Union, Enum, Enum64, ForwardDecl,
Typedef, Volatile, Const, Restrict, Function, FunctionPrototype, Variable,
DataSection, Float, DeclTag, TypeTag} (spec 3).  Each node carries a name
(possibly empty for anonymous types), a byte size where meaningful, and
kind-specific payload. -/
inductive TypeNode where
  | void
  | integer (name : String) (size : Nat) (signed : Bool)
  | pointer (typeId : Nat)
  | array (elemTypeId : Nat) (indexTypeId : Nat) (count : Nat)
  | structT (name : String) (size : Nat) (members : List BtfMember)
  | unionT (name : String) (size : Nat) (members : List BtfMember)
  | enumT (name : String) (size : Nat) (variants : List BtfEnumVariant)
  | enum64T (name : String) (size : Nat) (variants : List BtfEnumVariant)
  | fwdDecl (name : String)
  | typedefT (name : String) (typeId : Nat)
  | volatileT (typeId : Nat)
  | constT (typeId : Nat)
  | restrictT (typeId : Nat)
  | functionT (name : String) (typeId : Nat)
  | funcProtoT (retTypeId : Nat)
  | variableT (name : String) (typeId : Nat)
  | dataSection (name : String) (size : Nat)
  | floatT (name : String) (size : Nat)
  | declTag (name : String) (typeId : Nat)
  | typeTag (name : String) (typeId : Nat)
deriving DecidableEq

/-- Modelled from the spec: a TypeGraph owns an ordered sequence of TypeNodes
indexed by a dense integer id starting at 1; id 0 denotes the implicit void
type (spec 3).  Immutable once built. -/
structure TypeGraph where
  types : List TypeNode
deriving DecidableEq

/-- Modelled from the spec: id 0 is the implicit void type, id (i+1) is the
i-th node of the ordered sequence (spec 3). -/
def TypeGraph.typeById (g : TypeGraph) (id : Nat) : Option TypeNode :=
  match id with
  | 0 => some .void
  | Nat.succ i => g.types[i]?

/-- Number of valid type ids of a graph (the void id 0 included). -/
def TypeGraph.numIds (g : TypeGraph) : Nat := g.types.length + 1

/-- Modelled from the spec: Typedef/Const/Volatile/Restrict wrapper kinds are
stripped transparently during resolution (spec 4.3).  Fuel bounds the chase of
wrapper chains; `numIds` fuel suffices for any graph without wrapper cycles.
Returns the id of the first non-wrapper node together with the node. -/
def stripWrappers (g : TypeGraph) : Nat → Nat → Option (Nat × TypeNode)
  | 0, _ => none
  | fuel + 1, id =>
    match g.typeById id with
    | some (.typedefT _ t) => stripWrappers g fuel t
    | some (.volatileT t) => stripWrappers g fuel t
    | some (.constT t) => stripWrappers g fuel t
    | some (.restrictT t) => stripWrappers g fuel t
    | some n => some (id, n)
    | none => none

/-- Modelled from the spec: byte size of a type.  Struct/Union/Enum/Float/
DataSection carry their size; a Pointer is 8 bytes wide (64-bit target); an
Array is element count times element size; wrappers delegate to the wrapped
type (spec 3 and 6). -/
def typeSize (g : TypeGraph) : Nat → Nat → Option Nat
  | 0, _ => none
  | fuel + 1, id =>
    match g.typeById id with
    | some (.integer _ s _) => some s
    | some (.pointer _) => some 8
    | some (.array e _ n) => (typeSize g fuel e).map (n * ·)
    | some (.structT _ s _) => some s
    | some (.unionT _ s _) => some s
    | some (.enumT _ s _) => some s
    | some (.enum64T _ s _) => some s
    | some (.floatT _ s) => some s
    | some (.dataSection _ s) => some s
    | some (.typedefT _ t) => typeSize g fuel t
    | some (.volatileT t) => typeSize g fuel t
    | some (.constT t) => typeSize g fuel t
    | some (.restrictT t) => typeSize g fuel t
    | _ => none

/-- Modelled from the spec: one resolved step of an access spec, either
"descend into member i" (annotated with the member's name and type) or
"index array element i" (annotated with the element type) (spec 3). -/
inductive AccessStep where
  | member (idx : Nat) (name : String) (typeId : Nat)
  | arrayIdx (idx : Nat) (typeId : Nat)
deriving DecidableEq

/-- Modelled from the spec: the resolved form of an access-spec string: the
wrapper-stripped local root, the first (parameter/root) index, the step
sequence, and the bit offset and final type reached (spec 3 and 4.3). -/
structure AccessSpec where
  rootTypeId : Nat
  firstIdx : Nat
  steps : List AccessStep
  bitOffset : Nat
  typeId : Nat
deriving DecidableEq

/-- Modelled from the spec: failure conditions of access-spec resolution
(spec 4.3 and 7b).  `indexOutOfMembers` and `nonCompositeStep` are the two
failure conditions named by the spec; the remaining constructors cover
malformed graphs (dangling ids, unsized element types, empty access string). -/
inductive AccessError where
  | invalidTypeId (id : Nat)
  | indexOutOfMembers (idx : Nat) (count : Nat)
  | nonCompositeStep (idx : Nat)
  | emptyAccessString
  | sizeUnavailable (id : Nat)
deriving DecidableEq

/-- Modelled from the spec: resolve one access-spec index against the current
local type: a Struct/Union consumes the index as a member position (failing
if it exceeds the member count); an Array or Pointer consumes it as an element
index with offset = index times element size and no bounds check against the
declared array length; any other kind cannot take an index step (spec 4.3).
Returns the resolved step and its bit-offset contribution. -/
def accessStepAt (g : TypeGraph) (curId : Nat) (idx : Nat) :
    Except AccessError (AccessStep × Nat) :=
  match stripWrappers g g.numIds curId with
  | none => .error (.invalidTypeId curId)
  | some (_, node) =>
    match node with
    | .structT _ _ members =>
      match members[idx]? with
      | some m => .ok (.member idx m.name m.typeId, m.bitOffset)
      | none => .error (.indexOutOfMembers idx members.length)
    | .unionT _ _ members =>
      match members[idx]? with
      | some m => .ok (.member idx m.name m.typeId, m.bitOffset)
      | none => .error (.indexOutOfMembers idx members.length)
    | .array elem _ _ =>
      match typeSize g g.numIds elem with
      | some sz => .ok (.arrayIdx idx elem, idx * sz * 8)
      | none => .error (.sizeUnavailable elem)
    | .pointer t =>
      match typeSize g g.numIds t with
      | some sz => .ok (.arrayIdx idx t, idx * sz * 8)
      | none => .error (.sizeUnavailable t)
    | _ => .error (.nonCompositeStep idx)

/-- Target type id selected by an access step. -/
def AccessStep.nextTypeId : AccessStep → Nat
  | .member _ _ t => t
  | .arrayIdx _ t => t

/-- Modelled from the spec: walk the remaining access-spec indices from the
current type, accumulating steps and the bit offset; a failing step aborts
only this access-spec's resolution (spec 4.3). -/
def walkAccessFrom (g : TypeGraph) (curId : Nat) (bitOff : Nat) :
    List Nat → Except AccessError (List AccessStep × Nat × Nat)
  | [] => .ok ([], bitOff, curId)
  | idx :: rest =>
    match accessStepAt g curId idx with
    | .error e => .error e
    | .ok (step, inc) =>
      (walkAccessFrom g step.nextTypeId (bitOff + inc) rest).map
        fun r => (step :: r.1, r.2)

/-- Modelled from the spec: resolve an access-spec string (already split into
its colon-separated integers) against the local type graph.  The first index
selects the parameter/root and contributes index times root size, the
subsequent ones select members or array elements (spec 4.3). -/
def resolveAccessSpec (g : TypeGraph) (rootId : Nat) (access : List Nat) :
    Except AccessError AccessSpec :=
  match stripWrappers g g.numIds rootId with
  | none => .error (.invalidTypeId rootId)
  | some (rid, _) =>
    match access with
    | [] => .error .emptyAccessString
    | first :: rest =>
      match typeSize g g.numIds rid with
      | none => .error (.sizeUnavailable rid)
      | some sz =>
        match walkAccessFrom g rid (first * sz * 8) rest with
        | .error e => .error e
        | .ok (steps, off, fin) => .ok ⟨rid, first, steps, off, fin⟩

/-- Modelled from the spec: the candidate test of step 2 of the relocation
engine: two types match if they are of the same kind and, for named types, of
the same name; anonymous struct/union nodes are compared by their member
sequences (name, type, bit offset pairwise, member types recursively);
anonymous integers match by identical signedness and size class (spec 4.4.2
and the structural-equality invariant of spec 3).  Wrappers are stripped on
both sides first; fuel bounds the structural recursion. -/
def candidateMatches (lg tg : TypeGraph) : Nat → Nat → Nat → Bool
  | 0, _, _ => false
  | fuel + 1, lid, tid =>
    match stripWrappers lg lg.numIds lid, stripWrappers tg tg.numIds tid with
    | some (_, lnode), some (_, tnode) =>
      match lnode, tnode with
      | .void, .void => true
      | .integer ln ls lsg, .integer tn ts tsg =>
        if ln ≠ "" && tn ≠ "" then ln == tn else lsg == tsg && ls == ts
      | .pointer _, .pointer _ => true
      | .array le _ _, .array te _ _ => candidateMatches lg tg fuel le te
      | .structT ln _ lms, .structT tn _ tms =>
        if ln ≠ "" && tn ≠ "" then ln == tn
        else
          lms.length == tms.length &&
          (lms.zip tms).all fun p =>
            p.1.name == p.2.name && p.1.bitOffset == p.2.bitOffset &&
            candidateMatches lg tg fuel p.1.typeId p.2.typeId
      | .unionT ln _ lms, .unionT tn _ tms =>
        if ln ≠ "" && tn ≠ "" then ln == tn
        else
          lms.length == tms.length &&
          (lms.zip tms).all fun p =>
            p.1.name == p.2.name && p.1.bitOffset == p.2.bitOffset &&
            candidateMatches lg tg fuel p.1.typeId p.2.typeId
      | .enumT ln _ _, .enumT tn _ _ => ln == "" || tn == "" || ln == tn
      | .enum64T ln _ _, .enum64T tn _ _ => ln == "" || tn == "" || ln == tn
      | .fwdDecl ln, .fwdDecl tn => ln == tn
      | .functionT ln _, .functionT tn _ => ln == tn
      | .funcProtoT _, .funcProtoT _ => true
      | .variableT ln _, .variableT tn _ => ln == tn
      | .dataSection ln _, .dataSection tn _ => ln == tn
      | .floatT ln ls, .floatT tn ts =>
        if ln ≠ "" && tn ≠ "" then ln == tn else ls == ts
      | .declTag ln _, .declTag tn _ => ln == tn
      | .typeTag ln _, .typeTag tn _ => ln == tn
      | _, _ => false
    | _, _ => false

/-- Modelled from the spec: one step of the target path re-walk (step 3 of
the relocation engine): a member step descends to the member of the same
name, not the same position; an array step indexes the target element type
by the same index (spec 4.4.3). -/
def rewalkStep (tg : TypeGraph) (curId : Nat) (step : AccessStep) :
    Option (Nat × Nat) :=
  match stripWrappers tg tg.numIds curId with
  | none => none
  | some (_, node) =>
    match step, node with
    | .member _ name _, .structT _ _ ms =>
      (ms.find? fun m => m.name == name).map fun m => (m.typeId, m.bitOffset)
    | .member _ name _, .unionT _ _ ms =>
      (ms.find? fun m => m.name == name).map fun m => (m.typeId, m.bitOffset)
    | .arrayIdx idx _, .array elem _ _ =>
      (typeSize tg tg.numIds elem).map fun sz => (elem, idx * sz * 8)
    | .arrayIdx idx _, .pointer t =>
      (typeSize tg tg.numIds t).map fun sz => (t, idx * sz * 8)
    | _, _ => none

/-- Modelled from the spec: re-walk the whole step sequence in the target
graph, accumulating the target bit offset (spec 4.4.3). -/
def rewalkFrom (tg : TypeGraph) (curId : Nat) (bitOff : Nat) :
    List AccessStep → Option (Nat × Nat)
  | [] => some (curId, bitOff)
  | s :: rest =>
    match rewalkStep tg curId s with
    | some (next, inc) => rewalkFrom tg next (bitOff + inc) rest
    | none => none

/-- Modelled from the spec: the result of a successful target re-walk: the
matched target root, the target bit offset and the final target type
(spec 4.4.3). -/
structure TargetSpec where
  rootId : Nat
  bitOffset : Nat
  typeId : Nat
deriving DecidableEq

/-- Modelled from the spec: re-walk the local access spec against one target
candidate root, the first (parameter/root) index contributing index times
target root size (spec 4.4.3). -/
def rewalkTarget (tg : TypeGraph) (tid : Nat) (spec : AccessSpec) :
    Option TargetSpec :=
  match stripWrappers tg tg.numIds tid with
  | none => none
  | some (rid, _) =>
    match typeSize tg tg.numIds rid with
    | none => none
    | some sz =>
      (rewalkFrom tg rid (spec.firstIdx * sz * 8) spec.steps).map
        fun r => ⟨rid, r.2, r.1⟩

/-- Modelled from the spec: steps 2 and 3 of the relocation engine for field
relocations: the best-matching target type is the first id, in target-graph
id order (the documented deterministic tie-break of spec 4.4.2), whose node
matches the local root and for which every member referenced along the access
path has a correspondingly-named member, i.e. whose re-walk succeeds. -/
def findFieldMatch (lg tg : TypeGraph) (spec : AccessSpec) :
    Option (Nat × TargetSpec) :=
  (List.range tg.numIds).findSome? fun tid =>
    if candidateMatches lg tg (lg.numIds + tg.numIds) spec.rootTypeId tid then
      (rewalkTarget tg tid spec).map fun ts => (tid, ts)
    else none

/-- Modelled from the spec: step 2 for type-based relocations: the first
matching target id in id order (spec 4.4.2). -/
def findTypeMatch (lg tg : TypeGraph) (rootId : Nat) : Option Nat :=
  (List.range tg.numIds).findSome? fun tid =>
    if candidateMatches lg tg (lg.numIds + tg.numIds) rootId tid then some tid
    else none

/-- Enumeration payload of a type node, for Enum and Enum64 kinds. -/
def TypeNode.enumPayload : TypeNode → Option (String × List BtfEnumVariant)
  | .enumT n _ vs => some (n, vs)
  | .enum64T n _ vs => some (n, vs)
  | _ => none

/-- Whether a node is the 64-bit flavour of an enumeration. -/
def TypeNode.isEnum64 : TypeNode → Bool
  | .enum64T _ _ _ => true
  | _ => false

/-- Modelled from the spec: steps 2 and 3 for enum relocations: an enum
matches by name and, failing that, any enum of the same kind with a member of
the referenced name is accepted; the target member of the same name is then
selected (spec 4.4.2 and 4.4.4).  First match in target-graph id order. -/
def findEnumMatch (lg tg : TypeGraph) (rootId : Nat) (vname : String) :
    Option (Nat × BtfEnumVariant) :=
  match stripWrappers lg lg.numIds rootId with
  | none => none
  | some (_, lnode) =>
    match lnode.enumPayload with
    | none => none
    | some (ln, _) =>
      (List.range tg.numIds).findSome? fun tid =>
        match stripWrappers tg tg.numIds tid with
        | none => none
        | some (_, tnode) =>
          if tnode.isEnum64 == lnode.isEnum64 then
            match tnode.enumPayload with
            | none => none
            | some (tn, tvs) =>
              if (ln ≠ "" && tn ≠ "" && ln == tn) ||
                  tvs.any (fun v => v.name == vname) then
                (tvs.find? fun v => v.name == vname).map fun v => (tid, v)
              else none
          else none

/-- Modelled from the spec: the CO-RE relocation kind set (spec 3). -/
inductive RelocKind where
  | fieldByteOffset
  | fieldByteSize
  | fieldExists
  | fieldSigned
  | fieldLeftShift
  | fieldRightShift
  | typeIdLocal
  | typeIdTarget
  | typeExists
  | typeSize
  | enumValue
  | enumExists
deriving DecidableEq

/-- The three existence-query kinds (spec 4.4.4 and 4.4.6). -/
def RelocKind.isExistsKind : RelocKind → Bool
  | .fieldExists => true
  | .typeExists => true
  | .enumExists => true
  | _ => false

/-- Modelled from the spec: a CoreRelocation record {instruction offset within
a program, local type id, access-spec string, relocation kind} (spec 3).  The
access-spec string, a colon-separated sequence of small non-negative
integers, is carried already split into its integers. -/
structure CoreRelocation where
  insOffset : Nat
  typeId : Nat
  access : List Nat
  kind : RelocKind
deriving DecidableEq

/-- Modelled from the spec: a fixed 8-byte instruction record {opcode,
destination register (4 bits), source register (4 bits), signed 16-bit
offset, signed 32-bit immediate} (spec 3). -/
structure Instruction where
  opcode : Nat
  dstReg : Nat
  srcReg : Nat
  offset : Int
  imm : Int
deriving DecidableEq

/-- Wrap an integer to the signed 32-bit range of the immediate field. -/
def wrap32 (v : Int) : Int := (v + 2 ^ 31) % 2 ^ 32 - 2 ^ 31

/-- Modelled from the spec: patch application is purely a value substitution
into the instruction's immediate field; it does not change the opcode or the
register fields (spec 4.4.5). -/
def patchInstruction (ins : Instruction) (v : Int) : Instruction :=
  { ins with imm := wrap32 v }

/-- Modelled from the spec: the sentinel trap instruction the poisoning
policy writes over an unmatched relocation's instructions: a call to an
invalid helper carrying a recognizable sentinel error code (spec 4.4.6). -/
def poisonInstruction : Instruction :=
  { opcode := 0x85, dstReg := 0, srcReg := 0, offset := 0, imm := 195896080 }

/-- Modelled from the spec: value computation for the field relocation kinds,
from the re-walked target field: byte offset, byte size, signedness of the
underlying integer type, and the shift amounts isolating the field once
loaded as a full-width (64-bit) integer (spec 4.4.4).  The shift amounts are
derived from the field's bit offset and bit width relative to its containing
storage unit, for a little-endian target. -/
def fieldValue (tg : TypeGraph) (kind : RelocKind) (ts : TargetSpec) :
    Option Int :=
  match kind with
  | .fieldByteOffset => some (ts.bitOffset / 8)
  | .fieldByteSize => (typeSize tg tg.numIds ts.typeId).map Int.ofNat
  | .fieldSigned =>
    match stripWrappers tg tg.numIds ts.typeId with
    | some (_, .integer _ _ signed) => some (if signed then 1 else 0)
    | some (_, _) => some 0
    | none => none
  | .fieldLeftShift =>
    (typeSize tg tg.numIds ts.typeId).map fun sz =>
      let byteOff := ts.bitOffset / 8 / max sz 1 * max sz 1
      (64 : Int) - ((ts.bitOffset : Int) - (byteOff : Int) * 8) - (sz : Int) * 8
  | .fieldRightShift =>
    (typeSize tg tg.numIds ts.typeId).map fun sz => (64 : Int) - (sz : Int) * 8
  | _ => none

/-- Modelled from the spec: the local half of a relocation's resolution
(step 1): field relocations resolve the full access spec; type relocations
root at the local type (their access string is the single index 0); enum
relocations select the named local enum member (spec 4.3, 4.4.1, 4.4.4). -/
inductive LocalResolved where
  | fieldSpec (spec : AccessSpec)
  | typeRoot (rootId : Nat)
  | enumVar (name : String)
deriving DecidableEq

/-- Modelled from the spec: local resolution for type-based relocations: the
access string must be the single root index 0 and the local root id must be
valid (spec 4.4.4). -/
def resolveTypeAccess (g : TypeGraph) (rootId : Nat) (access : List Nat) :
    Except AccessError Nat :=
  match stripWrappers g g.numIds rootId with
  | none => .error (.invalidTypeId rootId)
  | some (rid, _) =>
    match access with
    | [0] => .ok rid
    | [] => .error .emptyAccessString
    | idx :: _ => .error (.nonCompositeStep idx)

/-- Modelled from the spec: local resolution for enum relocations: the access
string is a single index selecting a member of the local enum (spec 4.4.4). -/
def resolveEnumVariant (g : TypeGraph) (rootId : Nat) (access : List Nat) :
    Except AccessError (Nat × BtfEnumVariant) :=
  match stripWrappers g g.numIds rootId with
  | none => .error (.invalidTypeId rootId)
  | some (_, node) =>
    match node.enumPayload with
    | none =>
      match access with
      | [] => .error .emptyAccessString
      | idx :: _ => .error (.nonCompositeStep idx)
    | some (_, vs) =>
      match access with
      | [idx] =>
        match vs[idx]? with
        | some v => .ok (idx, v)
        | none => .error (.indexOutOfMembers idx vs.length)
      | [] => .error .emptyAccessString
      | idx :: _ => .error (.nonCompositeStep idx)

/-- Modelled from the spec: step 1 of the relocation engine, dispatching on
the relocation kind's family (spec 4.4.1). -/
def resolveLocal (lg : TypeGraph) (r : CoreRelocation) :
    Except AccessError LocalResolved :=
  match r.kind with
  | .fieldByteOffset | .fieldByteSize | .fieldExists | .fieldSigned
  | .fieldLeftShift | .fieldRightShift =>
    (resolveAccessSpec lg r.typeId r.access).map .fieldSpec
  | .typeIdLocal | .typeIdTarget | .typeExists | .typeSize =>
    (resolveTypeAccess lg r.typeId r.access).map .typeRoot
  | .enumValue | .enumExists =>
    (resolveEnumVariant lg r.typeId r.access).map fun p => .enumVar p.2.name

/-- Modelled from the spec: once the local side resolved, a relocation either
yields a computed value to patch with, or is poisoned (spec 4.4.4-4.4.6). -/
inductive MatchOutcome where
  | patched (value : Int)
  | poisoned
deriving DecidableEq

/-- Modelled from the spec: steps 2-4 of the relocation engine: find the
matching target type and re-walk the path, then compute the value by
relocation kind; the Exists kinds resolve to 1 on a successful match and 0
otherwise and never fail; TypeIdLocal needs no target match; any other kind
without a match is poisoned (spec 4.4.2-4.4.6). -/
def resolveWithTarget (lg tg : TypeGraph) (r : CoreRelocation)
    (l : LocalResolved) : MatchOutcome :=
  match l with
  | .fieldSpec spec =>
    match findFieldMatch lg tg spec with
    | some (_, ts) =>
      if r.kind = .fieldExists then .patched 1
      else
        match fieldValue tg r.kind ts with
        | some v => .patched v
        | none => .poisoned
    | none => if r.kind = .fieldExists then .patched 0 else .poisoned
  | .typeRoot rid =>
    if r.kind = .typeIdLocal then .patched rid
    else
      match findTypeMatch lg tg rid with
      | some tid =>
        match r.kind with
        | .typeExists => .patched 1
        | .typeIdTarget => .patched tid
        | .typeSize =>
          match typeSize tg tg.numIds tid with
          | some s => .patched s
          | none => .poisoned
        | _ => .poisoned
      | none => if r.kind = .typeExists then .patched 0 else .poisoned
  | .enumVar vname =>
    match findEnumMatch lg tg r.typeId vname with
    | some (_, tv) =>
      if r.kind = .enumExists then .patched 1 else .patched tv.value
    | none => if r.kind = .enumExists then .patched 0 else .poisoned

/-- Modelled from the spec: the three ways resolving one relocation can end:
patched with a computed value, poisoned, or failed at local access-spec
resolution — the latter a per-relocation failure that does not abort the
Object (spec 4.4.6 and 7b-7c). -/
inductive RelocOutcome where
  | patched (value : Int)
  | poisoned
  | failed (e : AccessError)
deriving DecidableEq

/-- Modelled from the spec: resolve one CoreRelocation against the local and
target type graphs (spec 4.4). -/
def resolveRelocation (lg tg : TypeGraph) (r : CoreRelocation) :
    RelocOutcome :=
  match resolveLocal lg r with
  | .error e => .failed e
  | .ok l =>
    match resolveWithTarget lg tg r l with
    | .patched v => .patched v
    | .poisoned => .poisoned

/-- Patch the instruction at index `i` with the absolute value `v`; out of
range indices leave the buffer unchanged (a relocation referencing an offset
with no corresponding instruction is rejected at parse time, spec 4.2). -/
def patchAt (insns : List Instruction) (i : Nat) (v : Int) :
    List Instruction :=
  match insns[i]? with
  | some ins => insns.set i (patchInstruction ins v)
  | none => insns

/-- Modelled from the spec: apply one relocation to a program's instruction
buffer: a patched outcome substitutes the computed value at the relocation's
instruction; a poisoned outcome overwrites the instructions in the range
implied by the relocation (modelled as the instruction at its offset) with
the sentinel trap; a failed outcome leaves the buffer untouched
(spec 4.4.5-4.4.6). -/
def applyRelocation (lg tg : TypeGraph) (insns : List Instruction)
    (r : CoreRelocation) : RelocOutcome × List Instruction :=
  match resolveRelocation lg tg r with
  | .patched v => (.patched v, patchAt insns r.insOffset v)
  | .poisoned => (.poisoned, insns.set r.insOffset poisonInstruction)
  | .failed e => (.failed e, insns)

/-- Modelled from the spec: the non-fatal diagnostics surfaced to the caller:
poisoned relocations and per-relocation access-spec failures (spec 4.4.6 and
7b-7c). -/
inductive RelocDiagnostic where
  | poisonedReloc (r : CoreRelocation)
  | failedReloc (r : CoreRelocation) (e : AccessError)
deriving DecidableEq

/-- Diagnostics contributed by one relocation's outcome. -/
def diagnosticsOf (r : CoreRelocation) : RelocOutcome → List RelocDiagnostic
  | .patched _ => []
  | .poisoned => [.poisonedReloc r]
  | .failed e => [.failedReloc r e]

/-- Modelled from the spec: run a program's relocations in order over its
instruction buffer, collecting the non-fatal diagnostics; no outcome aborts
the pass (spec 4.4.6). -/
def runRelocations (lg tg : TypeGraph) (insns : List Instruction) :
    List CoreRelocation → List Instruction × List RelocDiagnostic
  | [] => (insns, [])
  | r :: rest =>
    let step := applyRelocation lg tg insns r
    let res := runRelocations lg tg step.2 rest
    (res.1, diagnosticsOf r step.1 ++ res.2)

/-- Modelled from the spec: a Program: section name, instruction sequence and
pending CoreRelocation records (spec 3; the program kind, function name and
call relocations play no part in CO-RE resolution). -/
structure Program where
  sectionName : String
  instructions : List Instruction
  relocations : List CoreRelocation
deriving DecidableEq

/-- Modelled from the spec: relocate one Program: only its own instruction
buffer changes (spec 3, invariants). -/
def relocateProgram (lg tg : TypeGraph) (p : Program) :
    Program × List RelocDiagnostic :=
  let res := runRelocations lg tg p.instructions p.relocations
  ({ p with instructions := res.1 }, res.2)

/-- Modelled from the spec: relocate every program of an Object; each program
is relocated independently against the shared read-only graphs (spec 5). -/
def relocatePrograms (lg tg : TypeGraph) (progs : List (String × Program)) :
    List (String × Program) :=
  progs.map fun np => (np.1, (relocateProgram lg tg np.2).1)

/-- Modelled from the spec: the parsed Object: the optional local type graph
and the named programs (spec 3; the license, maps and symbols play no part in
CO-RE resolution). -/
structure Object where
  localBtf : Option TypeGraph
  programs : List (String × Program)
deriving DecidableEq

/-- Modelled from the spec: requesting relocation against a target graph
while no local graph exists is a distinct caller-misuse error (spec 7e). -/
inductive RelocateError where
  | noLocalTypeGraph
deriving DecidableEq

/-- Modelled from the spec: the CO-RE relocation pass over an Object.  When
no target graph is supplied no relocation is performed and the compiled-in
local values stand; otherwise every program is relocated and the poisoned or
failed relocations are surfaced as non-fatal diagnostics (spec 4.4, 7c, 8). -/
def relocateObject (obj : Object) (target : Option TypeGraph) :
    Except RelocateError (Object × List (String × RelocDiagnostic)) :=
  match target with
  | none => .ok (obj, [])
  | some tg =>
    match obj.localBtf with
    | none => .error .noLocalTypeGraph
    | some lg =>
      .ok ({ obj with programs := relocatePrograms lg tg obj.programs },
        obj.programs.foldr
          (fun np acc =>
            ((relocateProgram lg tg np.2).2.map fun d => (np.1, d)) ++ acc)
          [])

/-! Concrete type graphs and relocations for the spec's reordered-struct and
renumbered-enum scenarios (spec 8), mirroring the integration tests
`relocate_field` and `relocate_enum`. -/

/-- The one-byte unsigned integer type `__u8`. -/
def u8Node : TypeNode := .integer "__u8" 1 false

/-- Local graph of the reordered-struct scenario: id 1 = `__u8`, id 2 =
`struct foo { __u8 a; __u8 b; __u8 c; __u8 d; }`. -/
def localFooGraph : TypeGraph :=
  ⟨[u8Node, .structT "foo" 4
      [⟨"a", 1, 0⟩, ⟨"b", 1, 8⟩, ⟨"c", 1, 16⟩, ⟨"d", 1, 24⟩]]⟩

/-- Target graph of the reordered-struct scenario: `struct foo` with members
`b` and `c` swapped: `{ __u8 a; __u8 c; __u8 b; __u8 d; }`. -/
def targetFooGraph : TypeGraph :=
  ⟨[u8Node, .structT "foo" 4
      [⟨"a", 1, 0⟩, ⟨"c", 1, 8⟩, ⟨"b", 1, 16⟩, ⟨"d", 1, 24⟩]]⟩

/-- Target graph whose `struct foo` lacks member `c` entirely. -/
def targetFooNoC : TypeGraph :=
  ⟨[u8Node, .structT "foo" 3 [⟨"a", 1, 0⟩, ⟨"b", 1, 8⟩, ⟨"d", 1, 16⟩]]⟩

/-- FieldByteOffset relocation for member `c` of the local `struct foo`
(access spec "0:2", member position 2 locally). -/
def relocFieldC : CoreRelocation := ⟨0, 2, [0, 2], .fieldByteOffset⟩

/-- FieldByteOffset relocation for member `b` of the local `struct foo`
(access spec "0:1", member position 1 locally). -/
def relocFieldB : CoreRelocation := ⟨0, 2, [0, 1], .fieldByteOffset⟩

/-- FieldExists relocation for member `c` of the local `struct foo`. -/
def relocFieldCExists : CoreRelocation := ⟨0, 2, [0, 2], .fieldExists⟩

/-- Local graph of the enum scenario: id 1 = `enum foo { D = 1 }`. -/
def localEnumGraph : TypeGraph := ⟨[.enumT "foo" 4 [⟨"D", 1⟩]]⟩

/-- Target graph of the enum scenario: `enum foo { D = 4 }`. -/
def targetEnumGraph : TypeGraph := ⟨[.enumT "foo" 4 [⟨"D", 4⟩]]⟩

/-- EnumValue relocation for member `D` of the local enum (access spec "0"). -/
def enumReloc : CoreRelocation := ⟨0, 1, [0], .enumValue⟩

/-- One-instruction program whose immediate holds the compiled-in local enum
value 1, with the EnumValue relocation pending on it. -/
def enumProgram : Program :=
  ⟨"tracepoint/bpf_prog", [⟨0xb4, 1, 0, 0, 1⟩], [enumReloc]⟩

/-- Object of the enum scenario. -/
def enumObject : Object := ⟨some localEnumGraph, [("bpf_prog", enumProgram)]⟩

/-- Sample two-instruction buffer (a load and a mov). -/
def sampleInsns : List Instruction := [⟨0x61, 1, 2, 0, 0⟩, ⟨0xb7, 0, 0, 0, 0⟩]

/-- Sample program carrying the relocation for member `c`. -/
def fooProgram : Program := ⟨"tracepoint/bpf_prog", sampleInsns, [relocFieldC]⟩

/-- Whether step 2 of the engine found a matching target type for the
resolved local side of a relocation. -/
def targetMatchFound (lg tg : TypeGraph) (r : CoreRelocation) :
    LocalResolved → Bool
  | .fieldSpec spec => (findFieldMatch lg tg spec).isSome
  | .typeRoot rid => (findTypeMatch lg tg rid).isSome
  | .enumVar vname => (findEnumMatch lg tg r.typeId vname).isSome

/-- Small graph with an array type: id 1 = `__u8`, id 2 = `__u8[2]`. -/
def arrayGraph : TypeGraph := ⟨[u8Node, .array 1 0 2]⟩

/-- Field relocation whose access spec indexes member position 9 of the
four-member local struct: an unresolvable access spec. -/
def relocBadAccess : CoreRelocation := ⟨0, 2, [0, 9], .fieldByteOffset⟩

/-- The four kinds that can consume an access-spec index step
(Struct/Union/Array/Pointer, spec 4.3). -/
def TypeNode.steppable : TypeNode → Bool
  | .structT _ _ _ => true
  | .unionT _ _ _ => true
  | .array _ _ _ => true
  | .pointer _ => true
  | _ => false

/-- Whether the element size an index step on this node would need is
available in the graph (rules out malformed element references). -/
def stepSizesOk (g : TypeGraph) : TypeNode → Bool
  | .array e _ _ => (typeSize g g.numIds e).isSome
  | .pointer t => (typeSize g g.numIds t).isSome
  | _ => true

/-- The function one relocation applies to the instruction at its offset:
patching substitutes an absolute immediate, poisoning overwrites with the
sentinel, a failed relocation leaves the instruction alone. -/
def relocEffect (lg tg : TypeGraph) (r : CoreRelocation) :
    Instruction → Instruction :=
  match resolveRelocation lg tg r with
  | .patched v => fun ins => patchInstruction ins v
  | .poisoned => fun _ => poisonInstruction
  | .failed _ => fun ins => ins

/-- The effects a relocation list applies to the instruction slot `j`, in
order. -/
def effectsAt (lg tg : TypeGraph) (j : Nat) :
    List CoreRelocation → List (Instruction → Instruction)
  | [] => []
  | r :: rest =>
    if r.insOffset = j then relocEffect lg tg r :: effectsAt lg tg j rest
    else effectsAt lg tg j rest

/-- Left-to-right composition of a list of instruction effects. -/
def compEffects : List (Instruction → Instruction) → Instruction → Instruction
  | [] => fun ins => ins
  | e :: es => fun ins => compEffects es (e ins)

/-- The shape of every relocation effect: the identity, an absolute patch of
the immediate, or a constant overwrite.  All three are idempotent and a later
effect makes an earlier one irrelevant, which is what makes the relocation
pass idempotent. -/
def GoodEffect (e : Instruction → Instruction) : Prop :=
  (∀ ins, e ins = ins) ∨
  (∃ v, ∀ ins, e ins = patchInstruction ins v) ∨
  (∃ c, ∀ ins, e ins = c)

/-! Shallow embedding of aya-obj/src/programs/cgroup_sock.rs. -/

/-- Defines where to attach a `CgroupSock` program
(cgroup_sock.rs, `CgroupSockAttachType`). -/
inductive CgroupSockAttachType where
  | postBind4
  | postBind6
  | sockCreate
  | sockRelease
deriving DecidableEq

/-- The kernel checks for a 0 attach_type and sets it to sock_create; the
library defaults likewise (cgroup_sock.rs, the Default impl). -/
def CgroupSockAttachType.default : CgroupSockAttachType := .sockCreate

/-- The error for an invalid CGROUP_SOCK attach type, carrying the offending
input string (cgroup_sock.rs, `InvalidAttachType`). -/
structure InvalidAttachType where
  value : String
deriving DecidableEq

/-- `CgroupSockAttachType::try_from` (cgroup_sock.rs lines 45-55). -/
def CgroupSockAttachType.tryFrom (value : String) :
    Except InvalidAttachType CgroupSockAttachType :=
  match value with
  | "post_bind4" => .ok .postBind4
  | "post_bind6" => .ok .postBind6
  | "sock_create" => .ok .sockCreate
  | "sock_release" => .ok .sockRelease
  | _ => .error ⟨value⟩

/-! Shallow embedding of the LpmTrie accessors of aya/src/maps/lpm_trie.rs.
The syscall wrappers (`bpf_map_lookup_elem`, `bpf_map_get_next_key`) and
`MapData::fd_or_err` live outside the source snapshot; their results are
supplied as oracle values of the shapes their callers in lpm_trie.rs match
on. -/

/-- `MapData` as the lpm_trie.rs code and tests use it: an optional raw fd,
the pinned flag and an optional BTF fd (the parsed map object metadata plays
no part in the accessors under verification). -/
structure MapData where
  fd : Option Int
  pinned : Bool
  btfFd : Option Int
deriving DecidableEq

/-- The `MapError` variants the LpmTrie accessors produce: NotCreated from
the fd lookup, KeyNotFound, and SyscallError {call, io_error} with the io
error modelled by its raw os error code. -/
inductive MapError where
  | notCreated
  | keyNotFound
  | syscallError (call : String) (ioError : Int)
deriving DecidableEq

/-- Modelled from the spec: `MapData::fd_or_err` is not in the source
snapshot (the map layer is an out-of-scope collaborator); per its callers in
lpm_trie.rs and the NotCreated test it yields the raw fd when one exists and
the NotCreated error otherwise. -/
def MapData.fdOrErr (m : MapData) : Except MapError Int :=
  match m.fd with
  | some fd => .ok fd
  | none => .error .notCreated

/-- A Key for an LpmTrie map: the prefix length and the data to be matched
(lpm_trie.rs, `Key`). -/
structure LpmKey (K : Type) where
  prefixLen : Nat
  data : K
deriving DecidableEq

/-- State of the `LpmTrieKeys` iterator: the error flag and the current key
(lpm_trie.rs lines 191-205); the map reference is passed separately. -/
structure LpmTrieKeys (K : Type) where
  err : Bool
  key : LpmKey K
deriving DecidableEq

/-- Modelled from the spec: the `bpf_map_get_next_key` syscall wrapper is
not in the source snapshot; one call ends in a next key, in no further key,
or in a failure with a raw os error, the three shapes its caller in
lpm_trie.rs matches on. -/
inductive SysNextKey (K : Type) where
  | nextKey (k : LpmKey K)
  | noMoreKeys
  | sysError (errno : Int)
deriving DecidableEq

/-- `Iterator::next` for `LpmTrieKeys` (lpm_trie.rs lines 207-238): None once
the error flag is set; a failed fd lookup or a failed syscall yields one Err
and sets the flag; no further key ends the iteration; a next key is yielded
and stored. -/
def lpmTrieKeysNext {K : Type} (st : LpmTrieKeys K) (map : MapData)
    (resp : SysNextKey K) :
    Option (Except MapError (LpmKey K)) × LpmTrieKeys K :=
  if st.err then (none, st)
  else
    match map.fdOrErr with
    | .error e => (some (.error e), { st with err := true })
    | .ok _ =>
      match resp with
      | .nextKey k => (some (.ok k), { st with key := k })
      | .noMoreKeys => (none, st)
      | .sysError errno =>
        (some (.error (.syscallError "bpf_map_get_next_key" errno)),
          { st with err := true })

/-- Run the iterator over a trace of syscall responses, collecting the
yielded items. -/
def runLpmTrieKeys {K : Type} (map : MapData) :
    LpmTrieKeys K → List (SysNextKey K) →
    List (Option (Except MapError (LpmKey K)))
  | _, [] => []
  | st, r :: rest =>
    let step := lpmTrieKeysNext st map r
    step.1 :: runLpmTrieKeys map step.2 rest

/-- Number of Err items yielded along a trace. -/
def countErrs {K : Type} :
    List (Option (Except MapError (LpmKey K))) → Nat
  | [] => 0
  | some (.error _) :: rest => countErrs rest + 1
  | _ :: rest => countErrs rest

/-- Modelled from the spec: the `bpf_map_lookup_elem` syscall wrapper is not
in the source snapshot; one call ends in a value, in no value (the syscall
reported a missing entry), or in a failure with a raw os error, the shapes
its caller in lpm_trie.rs matches on. -/
inductive SysLookup (V : Type) where
  | found (v : V)
  | notFound
  | sysError (errno : Int)
deriving DecidableEq

/-- `LpmTrie::get` (lpm_trie.rs lines 117-126): the fd lookup first, then
the element lookup: a syscall failure maps to SyscallError
"bpf_map_lookup_elem" with the io error, a missing value to KeyNotFound and
a found value to Ok. -/
def lpmTrieGet {V : Type} (map : MapData) (resp : SysLookup V) :
    Except MapError V :=
  match map.fdOrErr with
  | .error e => .error e
  | .ok _ =>
    match resp with
    | .found v => .ok v
    | .notFound => .error .keyNotFound
    | .sysError errno =>
      .error (.syscallError "bpf_map_lookup_elem" errno)

/-- The outcome a relocation reports is the outcome its buffer update
realizes. -/
theorem applyRelocation_fst (lg tg : TypeGraph) (insns : List Instruction)
    (r : CoreRelocation) :
    (applyRelocation lg tg insns r).1 = resolveRelocation lg tg r := by
  unfold applyRelocation
  cases resolveRelocation lg tg r <;> rfl

/-- A poisoned relocation of a program is recorded in the diagnostics of any
relocation run containing it. -/
theorem poisoned_mem_diagnostics (lg tg : TypeGraph) (r : CoreRelocation)
    (hpoison : resolveRelocation lg tg r = RelocOutcome.poisoned)
    (rs : List CoreRelocation) :
    ∀ insns : List Instruction, r ∈ rs →
      RelocDiagnostic.poisonedReloc r ∈ (runRelocations lg tg insns rs).2 := by
  induction rs with
  | nil => intro insns h; cases h
  | cons a rest ih =>
    intro insns h
    simp only [runRelocations, List.mem_append]
    rcases List.mem_cons.mp h with h1 | h2
    · left
      subst h1
      rw [applyRelocation_fst, hpoison]
      simp [diagnosticsOf]
    · right
      exact ih _ h2

/-- C1 counterexample: against the reordered target struct
`{a, c, b, d}`, the FieldByteOffset relocation for member `c` does not
resolve to byte offset 2 as the claim states: it resolves to byte offset 1,
the offset of the member named `c` in the target layout (the integration
test observes memory[1] = 2 there). -/
theorem c1_field_offset_counterexample :
    resolveRelocation localFooGraph targetFooGraph relocFieldC ≠
      RelocOutcome.patched 2 ∧
    resolveRelocation localFooGraph targetFooGraph relocFieldC =
      RelocOutcome.patched 1 := by
  decide

/-- C1 (amended): the target path re-walk looks members up by name, not by
original position: against the target struct `{a, c, b, d}` the relocation
for member `c` resolves to byte offset 1 (versus 2 in the local layout) and
the relocation for member `b` resolves to byte offset 2 (versus 1 locally);
the local access spec for `c` records the member name `c` at local position
2, and relocating against the local graph itself reproduces the local
offsets. -/
theorem c1_field_offset_by_name :
    resolveRelocation localFooGraph targetFooGraph relocFieldC =
      RelocOutcome.patched 1 ∧
    resolveRelocation localFooGraph localFooGraph relocFieldC =
      RelocOutcome.patched 2 ∧
    resolveRelocation localFooGraph targetFooGraph relocFieldB =
      RelocOutcome.patched 2 ∧
    resolveRelocation localFooGraph localFooGraph relocFieldB =
      RelocOutcome.patched 1 ∧
    resolveAccessSpec localFooGraph 2 [0, 2] =
      Except.ok ⟨2, 0, [AccessStep.member 2 "c" 1], 16, 1⟩ := by
  decide

/-- C2: with the target graph `enum foo { D = 4 }` supplied, the EnumValue
relocation patches the instruction's immediate to 4; with no target graph
supplied no relocation is performed and the compiled-in local value 1
stands. -/
theorem c2_enum_value_reloc :
    relocateObject enumObject (some targetEnumGraph) =
      Except.ok
        ({ enumObject with
            programs := [("bpf_prog",
              { enumProgram with instructions := [⟨0xb4, 1, 0, 0, 4⟩] })] },
          []) ∧
    relocateObject enumObject none = Except.ok (enumObject, []) ∧
    enumProgram.instructions.map Instruction.imm = [1] := by
  decide

/-- C3: for a relocation of a non-Exists kind whose local access-spec
resolves, exactly one of the two outcomes holds: the instruction is patched
with the computed value, or the instructions at the relocation's offset are
overwritten with the sentinel trap — never both and never neither. -/
theorem nonexists_patch_xor_poison (lg tg : TypeGraph) (r : CoreRelocation)
    (insns : List Instruction) (l : LocalResolved)
    (_hk : r.kind.isExistsKind = false)
    (hl : resolveLocal lg r = Except.ok l) :
    ((∃ v, resolveRelocation lg tg r = RelocOutcome.patched v ∧
        (applyRelocation lg tg insns r).2 = patchAt insns r.insOffset v) ∧
      resolveRelocation lg tg r ≠ RelocOutcome.poisoned) ∨
    ((resolveRelocation lg tg r = RelocOutcome.poisoned ∧
        (applyRelocation lg tg insns r).2 =
          insns.set r.insOffset poisonInstruction) ∧
      ∀ v, resolveRelocation lg tg r ≠ RelocOutcome.patched v) := by
  have hres : resolveRelocation lg tg r =
      match resolveWithTarget lg tg r l with
      | .patched v => RelocOutcome.patched v
      | .poisoned => RelocOutcome.poisoned := by
    unfold resolveRelocation
    rw [hl]
  cases hmo : resolveWithTarget lg tg r l with
  | patched v =>
    have h1 : resolveRelocation lg tg r = RelocOutcome.patched v := by
      rw [hres, hmo]
    refine Or.inl ⟨⟨v, h1, ?_⟩, ?_⟩
    · unfold applyRelocation
      rw [h1]
    · rw [h1]
      intro h
      exact RelocOutcome.noConfusion h
  | poisoned =>
    have h1 : resolveRelocation lg tg r = RelocOutcome.poisoned := by
      rw [hres, hmo]
    refine Or.inr ⟨⟨h1, ?_⟩, ?_⟩
    · unfold applyRelocation
      rw [h1]
    · intro v h
      rw [h1] at h
      exact RelocOutcome.noConfusion h

/-- Witness for C3: the relocation for member `b` against the reordered
target struct resolves, patches its instruction with the absolute value 2,
and is not poisoned. -/
theorem nonexists_patch_xor_poison_witness :
    (applyRelocation localFooGraph targetFooGraph sampleInsns relocFieldB).2 =
      patchAt sampleInsns relocFieldB.insOffset 2 ∧
    resolveRelocation localFooGraph targetFooGraph relocFieldB ≠
      RelocOutcome.poisoned := by
  have h := nonexists_patch_xor_poison localFooGraph targetFooGraph relocFieldB
    sampleInsns (LocalResolved.fieldSpec ⟨2, 0, [AccessStep.member 1 "b" 1], 8, 1⟩)
    (by decide) (by decide)
  rcases h with ⟨⟨v, h1, h2⟩, h3⟩ | ⟨⟨h1, _⟩, _⟩
  · have hv : RelocOutcome.patched v = RelocOutcome.patched 2 := by
      rw [← h1]; decide
    injection hv with hv'
    rw [hv'] at h2
    exact ⟨h2, h3⟩
  · exact absurd h1 (by decide)

/-- C4: a poisoned relocation only overwrites the instructions in its own
range: every other instruction slot of the buffer is unchanged, the program's
relocation records are unchanged, every program of an Object is relocated
independently of the others, the poisoned relocation is recorded as a
diagnostic, and the relocation pass still succeeds (the diagnostic is
non-fatal). -/
theorem poison_frame_effect (lg tg : TypeGraph) (r : CoreRelocation)
    (insns : List Instruction) (p : Program)
    (hpoison : resolveRelocation lg tg r = RelocOutcome.poisoned) :
    (∀ j, j ≠ r.insOffset →
        ((applyRelocation lg tg insns r).2)[j]? = insns[j]?) ∧
    (r.insOffset < insns.length →
        ((applyRelocation lg tg insns r).2)[r.insOffset]? =
          some poisonInstruction) ∧
    (relocateProgram lg tg p).1.relocations = p.relocations ∧
    (∀ ps : List (String × Program), relocatePrograms lg tg ps =
        ps.map fun np => (np.1, (relocateProgram lg tg np.2).1)) ∧
    (r ∈ p.relocations →
        RelocDiagnostic.poisonedReloc r ∈ (relocateProgram lg tg p).2) ∧
    (∀ obj : Object, obj.localBtf = some lg →
        ∃ res, relocateObject obj (some tg) = Except.ok res) := by
  have hbuf : (applyRelocation lg tg insns r).2 =
      insns.set r.insOffset poisonInstruction := by
    unfold applyRelocation
    rw [hpoison]
  refine ⟨?_, ?_, rfl, fun ps => rfl, ?_, ?_⟩
  · intro j hj
    rw [hbuf]
    exact List.getElem?_set_ne (Ne.symm hj)
  · intro hlt
    rw [hbuf]
    exact List.getElem?_set_self hlt
  · intro hmem
    exact poisoned_mem_diagnostics lg tg r hpoison p.relocations p.instructions hmem
  · intro obj hobj
    simp only [relocateObject, hobj]
    exact ⟨_, rfl⟩

/-- Witness for C4: the relocation for member `c` against the target struct
lacking `c` is poisoned; the other instruction slot keeps its value, the
poisoned slot holds the sentinel, and the diagnostic is recorded. -/
theorem poison_frame_effect_witness :
    resolveRelocation localFooGraph targetFooNoC relocFieldC =
      RelocOutcome.poisoned ∧
    ((applyRelocation localFooGraph targetFooNoC sampleInsns relocFieldC).2)[1]? =
      sampleInsns[1]? ∧
    ((applyRelocation localFooGraph targetFooNoC sampleInsns relocFieldC).2)[0]? =
      some poisonInstruction ∧
    RelocDiagnostic.poisonedReloc relocFieldC ∈
      (relocateProgram localFooGraph targetFooNoC fooProgram).2 := by
  have h := poison_frame_effect localFooGraph targetFooNoC relocFieldC
    sampleInsns fooProgram (by decide)
  exact ⟨by decide, h.1 1 (by decide), h.2.1 (by decide),
    h.2.2.2.2.1 (by decide)⟩

/-- C5: a relocation of an Exists kind whose local side resolves always
patches with the value 1 if target matching succeeded and 0 otherwise, never
fails, and never poisons the instruction stream. -/
theorem exists_kind_never_poisons (lg tg : TypeGraph) (r : CoreRelocation)
    (insns : List Instruction) (l : LocalResolved)
    (hk : r.kind.isExistsKind = true)
    (hl : resolveLocal lg r = Except.ok l) :
    resolveRelocation lg tg r =
      RelocOutcome.patched (if targetMatchFound lg tg r l then 1 else 0) ∧
    resolveRelocation lg tg r ≠ RelocOutcome.poisoned ∧
    (∀ e, resolveRelocation lg tg r ≠ RelocOutcome.failed e) ∧
    (applyRelocation lg tg insns r).2 =
      patchAt insns r.insOffset
        (if targetMatchFound lg tg r l then 1 else 0) := by
  have hmain : resolveRelocation lg tg r =
      RelocOutcome.patched (if targetMatchFound lg tg r l then 1 else 0) := by
    have hres : resolveRelocation lg tg r =
        match resolveWithTarget lg tg r l with
        | .patched v => RelocOutcome.patched v
        | .poisoned => RelocOutcome.poisoned := by
      unfold resolveRelocation
      rw [hl]
    cases hk2 : r.kind
    case fieldExists =>
      simp only [resolveLocal, hk2] at hl
      cases hacc : resolveAccessSpec lg r.typeId r.access with
      | error e => rw [hacc] at hl; exact Except.noConfusion hl
      | ok spec =>
        rw [hacc] at hl
        simp only [Except.map] at hl
        injection hl with hl'
        subst hl'
        cases hf : findFieldMatch lg tg spec with
        | some p =>
          obtain ⟨tid, ts⟩ := p
          rw [hres]
          simp [resolveWithTarget, targetMatchFound, hk2, hf]
        | none =>
          rw [hres]
          simp [resolveWithTarget, targetMatchFound, hk2, hf]
    case typeExists =>
      simp only [resolveLocal, hk2] at hl
      cases hacc : resolveTypeAccess lg r.typeId r.access with
      | error e => rw [hacc] at hl; exact Except.noConfusion hl
      | ok rid =>
        rw [hacc] at hl
        simp only [Except.map] at hl
        injection hl with hl'
        subst hl'
        cases hf : findTypeMatch lg tg rid with
        | some tid =>
          rw [hres]
          simp [resolveWithTarget, targetMatchFound, hk2, hf]
        | none =>
          rw [hres]
          simp [resolveWithTarget, targetMatchFound, hk2, hf]
    case enumExists =>
      simp only [resolveLocal, hk2] at hl
      cases hacc : resolveEnumVariant lg r.typeId r.access with
      | error e => rw [hacc] at hl; exact Except.noConfusion hl
      | ok p =>
        rw [hacc] at hl
        simp only [Except.map] at hl
        injection hl with hl'
        subst hl'
        cases hf : findEnumMatch lg tg r.typeId p.2.name with
        | some q =>
          obtain ⟨tid, tv⟩ := q
          rw [hres]
          simp [resolveWithTarget, targetMatchFound, hk2, hf]
        | none =>
          rw [hres]
          simp [resolveWithTarget, targetMatchFound, hk2, hf]
    all_goals simp [RelocKind.isExistsKind, hk2] at hk
  refine ⟨hmain, ?_, ?_, ?_⟩
  · rw [hmain]
    intro h
    exact RelocOutcome.noConfusion h
  · intro e h
    rw [hmain] at h
    exact RelocOutcome.noConfusion h
  · unfold applyRelocation
    rw [hmain]

/-- Witness for C5: a FieldExists relocation for member `c` against the
target struct lacking `c` resolves to 0, is not poisoned and does not
fail. -/
theorem exists_kind_never_poisons_witness :
    resolveRelocation localFooGraph targetFooNoC relocFieldCExists =
      RelocOutcome.patched
        (if targetMatchFound localFooGraph targetFooNoC relocFieldCExists
            (LocalResolved.fieldSpec ⟨2, 0, [AccessStep.member 2 "c" 1], 16, 1⟩)
          then 1 else 0) ∧
    resolveRelocation localFooGraph targetFooNoC relocFieldCExists ≠
      RelocOutcome.poisoned ∧
    resolveRelocation localFooGraph targetFooNoC relocFieldCExists ≠
      RelocOutcome.failed AccessError.emptyAccessString := by
  have h := exists_kind_never_poisons localFooGraph targetFooNoC relocFieldCExists
    sampleInsns (LocalResolved.fieldSpec ⟨2, 0, [AccessStep.member 2 "c" 1], 16, 1⟩)
    (by decide) (by decide)
  exact ⟨h.1, h.2.1, h.2.2.1 AccessError.emptyAccessString⟩

/-- Patching stores an absolute replacement value: re-patching is
absorbed. -/
theorem patchInstruction_absorb (ins : Instruction) (v w : Int) :
    patchInstruction (patchInstruction ins v) w = patchInstruction ins w := rfl

/-- Pointwise description of `patchAt`. -/
theorem patchAt_getElem (insns : List Instruction) (i : Nat) (v : Int)
    (j : Nat) :
    (patchAt insns i v)[j]? =
      if i = j then (insns[j]?).map (fun ins => patchInstruction ins v)
      else insns[j]? := by
  unfold patchAt
  cases hins : insns[i]? with
  | some ins =>
    rw [List.getElem?_set]
    by_cases hj : i = j
    · subst hj
      rcases List.getElem?_eq_some_iff.mp hins with ⟨hlt, hval⟩
      rw [if_pos rfl, if_pos rfl, if_pos hlt, hins]
      rfl
    · rw [if_neg hj, if_neg hj]
  | none =>
    by_cases hj : i = j
    · subst hj
      rw [if_pos rfl, hins]
      rfl
    · rw [if_neg hj]

/-- Pointwise description of a whole-instruction overwrite. -/
theorem setAt_getElem (insns : List Instruction) (i : Nat) (c : Instruction)
    (j : Nat) :
    (insns.set i c)[j]? =
      if i = j then (insns[j]?).map (fun _ => c) else insns[j]? := by
  rw [List.getElem?_set]
  by_cases hj : i = j
  · subst hj
    rw [if_pos rfl, if_pos rfl]
    cases hins : insns[i]? with
    | some ins =>
      rcases List.getElem?_eq_some_iff.mp hins with ⟨hlt, _⟩
      rw [if_pos hlt]
      rfl
    | none =>
      have hge := List.getElem?_eq_none_iff.mp hins
      rw [if_neg (Nat.not_lt.mpr hge)]
      rfl
  · rw [if_neg hj, if_neg hj]

/-- Applying one relocation acts on the buffer pointwise through its
effect. -/
theorem applyRelocation_getElem (lg tg : TypeGraph) (insns : List Instruction)
    (r : CoreRelocation) (j : Nat) :
    ((applyRelocation lg tg insns r).2)[j]? =
      if r.insOffset = j then (insns[j]?).map (relocEffect lg tg r)
      else insns[j]? := by
  cases hres : resolveRelocation lg tg r with
  | patched v =>
    have hbuf : (applyRelocation lg tg insns r).2 =
        patchAt insns r.insOffset v := by
      unfold applyRelocation
      rw [hres]
    have heff : relocEffect lg tg r = fun ins => patchInstruction ins v := by
      unfold relocEffect
      rw [hres]
    rw [hbuf, heff, patchAt_getElem]
  | poisoned =>
    have hbuf : (applyRelocation lg tg insns r).2 =
        insns.set r.insOffset poisonInstruction := by
      unfold applyRelocation
      rw [hres]
    have heff : relocEffect lg tg r = fun _ => poisonInstruction := by
      unfold relocEffect
      rw [hres]
    rw [hbuf, heff, setAt_getElem]
  | failed e =>
    have hbuf : (applyRelocation lg tg insns r).2 = insns := by
      unfold applyRelocation
      rw [hres]
    have heff : relocEffect lg tg r = fun ins => ins := by
      unfold relocEffect
      rw [hres]
    rw [hbuf, heff]
    by_cases hj : r.insOffset = j
    · rw [if_pos hj]
      cases insns[j]? <;> rfl
    · rw [if_neg hj]

/-- A relocation run acts on each instruction slot as the composition of the
effects of the relocations aimed at that slot. -/
theorem runRelocations_getElem (lg tg : TypeGraph) (rs : List CoreRelocation)
    (insns : List Instruction) (j : Nat) :
    ((runRelocations lg tg insns rs).1)[j]? =
      (insns[j]?).map (compEffects (effectsAt lg tg j rs)) := by
  induction rs generalizing insns with
  | nil =>
    have h0 : (runRelocations lg tg insns []).1 = insns := rfl
    rw [h0]
    cases insns[j]? <;> rfl
  | cons r rest ih =>
    have hstep : (runRelocations lg tg insns (r :: rest)).1 =
        (runRelocations lg tg (applyRelocation lg tg insns r).2 rest).1 := rfl
    rw [hstep, ih, applyRelocation_getElem]
    by_cases hj : r.insOffset = j
    · rw [if_pos hj]
      simp only [effectsAt, if_pos hj]
      cases insns[j]? <;> rfl
    · rw [if_neg hj]
      simp only [effectsAt, if_neg hj]

/-- Every relocation effect is of one of the three good shapes. -/
theorem relocEffect_good (lg tg : TypeGraph) (r : CoreRelocation) :
    GoodEffect (relocEffect lg tg r) := by
  cases hres : resolveRelocation lg tg r with
  | patched v =>
    refine Or.inr (Or.inl ⟨v, fun ins => ?_⟩)
    unfold relocEffect
    rw [hres]
  | poisoned =>
    refine Or.inr (Or.inr ⟨poisonInstruction, fun ins => ?_⟩)
    unfold relocEffect
    rw [hres]
  | failed e =>
    refine Or.inl fun ins => ?_
    unfold relocEffect
    rw [hres]

/-- All effects aimed at a slot are good. -/
theorem effectsAt_good (lg tg : TypeGraph) (j : Nat)
    (rs : List CoreRelocation) :
    ∀ e ∈ effectsAt lg tg j rs, GoodEffect e := by
  induction rs with
  | nil => intro e he; cases he
  | cons r rest ih =>
    intro e he
    unfold effectsAt at he
    by_cases hj : r.insOffset = j
    · rw [if_pos hj] at he
      rcases List.mem_cons.mp he with h | h
      · subst h
        exact relocEffect_good lg tg r
      · exact ih e h
    · rw [if_neg hj] at he
      exact ih e he

/-- A composition of good effects is good. -/
theorem compEffects_good (es : List (Instruction → Instruction))
    (h : ∀ e ∈ es, GoodEffect e) : GoodEffect (compEffects es) := by
  induction es with
  | nil => exact Or.inl fun ins => rfl
  | cons e es ih =>
    have hih := ih fun x hx => h x (List.mem_cons_of_mem e hx)
    have he := h e (List.mem_cons_self e es)
    have hcomp : ∀ ins, compEffects (e :: es) ins = compEffects es (e ins) :=
      fun ins => rfl
    rcases hih with hid | ⟨w, hw⟩ | ⟨c, hc⟩
    · rcases he with h1 | ⟨v, hv⟩ | ⟨c, hc2⟩
      · exact Or.inl fun ins => by rw [hcomp, hid, h1]
      · exact Or.inr (Or.inl ⟨v, fun ins => by rw [hcomp, hid, hv]⟩)
      · exact Or.inr (Or.inr ⟨c, fun ins => by rw [hcomp, hid, hc2]⟩)
    · rcases he with h1 | ⟨v, hv⟩ | ⟨c, hc2⟩
      · exact Or.inr (Or.inl ⟨w, fun ins => by rw [hcomp, h1, hw]⟩)
      · exact Or.inr (Or.inl ⟨w, fun ins => by
          rw [hcomp, hv, hw, patchInstruction_absorb]⟩)
      · exact Or.inr (Or.inr ⟨patchInstruction c w, fun ins => by
          rw [hcomp, hc2, hw]⟩)
    · exact Or.inr (Or.inr ⟨c, fun ins => by rw [hcomp, hc]⟩)

/-- Good effects are idempotent. -/
theorem goodEffect_idem (e : Instruction → Instruction) (h : GoodEffect e)
    (ins : Instruction) : e (e ins) = e ins := by
  rcases h with h1 | ⟨v, hv⟩ | ⟨c, hc⟩
  · rw [h1, h1]
  · rw [hv (e ins), hv ins, patchInstruction_absorb]
  · rw [hc (e ins), hc ins]

/-- C6: relocation patching is idempotent: a patch stores an absolute
replacement value, so reapplying the same resolved patch to an already
patched instruction is a no-op; and re-running a program's relocations, or a
whole Object's relocations, over the already relocated instruction buffers
yields bit-identical buffers. -/
theorem reloc_pass_idempotent (lg tg : TypeGraph) :
    (∀ (ins : Instruction) (v : Int),
        patchInstruction (patchInstruction ins v) v = patchInstruction ins v) ∧
    (∀ (insns : List Instruction) (rs : List CoreRelocation),
        (runRelocations lg tg (runRelocations lg tg insns rs).1 rs).1 =
          (runRelocations lg tg insns rs).1) ∧
    (∀ ps : List (String × Program),
        relocatePrograms lg tg (relocatePrograms lg tg ps) =
          relocatePrograms lg tg ps) := by
  have hrun : ∀ (insns : List Instruction) (rs : List CoreRelocation),
      (runRelocations lg tg (runRelocations lg tg insns rs).1 rs).1 =
        (runRelocations lg tg insns rs).1 := by
    intro insns rs
    apply List.ext_getElem?
    intro j
    rw [runRelocations_getElem, runRelocations_getElem]
    cases insns[j]? with
    | none => rfl
    | some i =>
      exact congrArg some
        (goodEffect_idem _ (compEffects_good _ (effectsAt_good lg tg j rs)) i)
  have hprog : ∀ p : Program,
      (relocateProgram lg tg (relocateProgram lg tg p).1).1 =
        (relocateProgram lg tg p).1 := by
    intro p
    simp only [relocateProgram]
    rw [hrun]
  refine ⟨fun ins v => rfl, hrun, ?_⟩
  intro ps
  induction ps with
  | nil => rfl
  | cons a t iht =>
    simp only [relocatePrograms, List.map_cons, List.map_map] at *
    rw [hprog]
    exact congrArg _ iht

/-- C7: with the current type wrapper-stripped and well-sized, an access-spec
step fails exactly when the index exceeds the member count of a Struct/Union
or the current type is none of Struct/Union/Array/Pointer; an array index at
or beyond the declared element count is not an error and yields offset index
times element size; and a failed access spec aborts only that relocation's
resolution: the pass records the failure and continues unchanged over the
rest. -/
theorem access_step_failure_conditions (g : TypeGraph) (curId idx i : Nat)
    (node : TypeNode)
    (hs : stripWrappers g g.numIds curId = some (i, node))
    (hwf : stepSizesOk g node = true) :
    ((∃ e, accessStepAt g curId idx = Except.error e) ↔
      (∃ n s ms,
        (node = TypeNode.structT n s ms ∨ node = TypeNode.unionT n s ms) ∧
        ms.length ≤ idx) ∨
      node.steppable = false) ∧
    (∀ elem ity count sz, node = TypeNode.array elem ity count → count ≤ idx →
        typeSize g g.numIds elem = some sz →
        accessStepAt g curId idx =
          Except.ok (AccessStep.arrayIdx idx elem, idx * sz * 8)) ∧
    (∀ (lg tg : TypeGraph) (insns : List Instruction) (r : CoreRelocation)
        (e : AccessError) (rest : List CoreRelocation),
        resolveRelocation lg tg r = RelocOutcome.failed e →
        runRelocations lg tg insns (r :: rest) =
          ((runRelocations lg tg insns rest).1,
            RelocDiagnostic.failedReloc r e ::
              (runRelocations lg tg insns rest).2)) := by
  refine ⟨?_, ?_, ?_⟩
  · simp only [accessStepAt, hs]
    cases node
    case structT n s ms =>
      cases hm : ms[idx]? with
      | some m =>
        simp only [hm]
        constructor
        · rintro ⟨e, he⟩
          exact Except.noConfusion he
        · rintro (⟨n2, s2, ms2, hor, hlen⟩ | hstep)
          · rcases hor with h | h
            · injection h with h1 h2 h3
              subst h3
              have : idx < ms.length := by
                rcases List.getElem?_eq_some_iff.mp hm with ⟨hlt, _⟩
                exact hlt
              omega
            · exact TypeNode.noConfusion h
          · simp [TypeNode.steppable] at hstep
      | none =>
        simp only [hm]
        constructor
        · intro _
          exact Or.inl ⟨n, s, ms, Or.inl rfl, List.getElem?_eq_none_iff.mp hm⟩
        · intro _
          exact ⟨AccessError.indexOutOfMembers idx ms.length, rfl⟩
    case unionT n s ms =>
      cases hm : ms[idx]? with
      | some m =>
        simp only [hm]
        constructor
        · rintro ⟨e, he⟩
          exact Except.noConfusion he
        · rintro (⟨n2, s2, ms2, hor, hlen⟩ | hstep)
          · rcases hor with h | h
            · exact TypeNode.noConfusion h
            · injection h with h1 h2 h3
              subst h3
              have : idx < ms.length := by
                rcases List.getElem?_eq_some_iff.mp hm with ⟨hlt, _⟩
                exact hlt
              omega
          · simp [TypeNode.steppable] at hstep
      | none =>
        simp only [hm]
        constructor
        · intro _
          exact Or.inl ⟨n, s, ms, Or.inr rfl, List.getElem?_eq_none_iff.mp hm⟩
        · intro _
          exact ⟨AccessError.indexOutOfMembers idx ms.length, rfl⟩
    case array e ity n =>
      simp only [stepSizesOk, Option.isSome_iff_exists] at hwf
      obtain ⟨sz, hsz⟩ := hwf
      simp only [hsz]
      constructor
      · rintro ⟨e2, he⟩
        exact Except.noConfusion he
      · rintro (⟨n2, s2, ms2, hor, hlen⟩ | hstep)
        · rcases hor with h | h <;> exact TypeNode.noConfusion h
        · simp [TypeNode.steppable] at hstep
    case pointer t =>
      simp only [stepSizesOk, Option.isSome_iff_exists] at hwf
      obtain ⟨sz, hsz⟩ := hwf
      simp only [hsz]
      constructor
      · rintro ⟨e2, he⟩
        exact Except.noConfusion he
      · rintro (⟨n2, s2, ms2, hor, hlen⟩ | hstep)
        · rcases hor with h | h <;> exact TypeNode.noConfusion h
        · simp [TypeNode.steppable] at hstep
    all_goals
      constructor
      · intro _
        refine Or.inr ?_
        simp [TypeNode.steppable]
      · intro _
        exact ⟨AccessError.nonCompositeStep idx, rfl⟩
  · intro elem ity count sz hnode hcount hsz
    subst hnode
    simp only [accessStepAt, hs, hsz]
  · intro lg tg insns r e rest hfail
    have happ : applyRelocation lg tg insns r =
        (RelocOutcome.failed e, insns) := by
      unfold applyRelocation
      rw [hfail]
    simp only [runRelocations, happ, diagnosticsOf]
    rfl

/-- Witness for C7: indexing element 5 of the declared two-element array is
not an error and yields byte offset 5 (bit offset 40); and the relocation
whose access spec indexes member 9 of the four-member struct fails but only
that relocation is affected: the pass records the diagnostic and leaves the
buffer as the rest of the pass produces it. -/
theorem access_step_failure_conditions_witness :
    accessStepAt arrayGraph 2 5 =
      Except.ok (AccessStep.arrayIdx 5 1, 40) ∧
    runRelocations localFooGraph targetFooGraph sampleInsns [relocBadAccess] =
      ((runRelocations localFooGraph targetFooGraph sampleInsns []).1,
        RelocDiagnostic.failedReloc relocBadAccess
            (AccessError.indexOutOfMembers 9 4) ::
          (runRelocations localFooGraph targetFooGraph sampleInsns []).2) :=
  ⟨(access_step_failure_conditions arrayGraph 2 5 2 (TypeNode.array 1 0 2)
        (by decide) (by decide)).2.1 1 0 2 1 rfl (by decide) (by decide),
    (access_step_failure_conditions arrayGraph 2 5 2 (TypeNode.array 1 0 2)
        (by decide) (by decide)).2.2 localFooGraph targetFooGraph sampleInsns
      relocBadAccess (AccessError.indexOutOfMembers 9 4) [] (by decide)⟩

/-- C8: `CgroupSockAttachType::try_from` succeeds on exactly the four attach
type strings, mapping each to its variant; every other input yields an
InvalidAttachType error carrying that input; the default attach type is
sock_create. -/
theorem cgroup_sock_try_from_spec (s : String) :
    CgroupSockAttachType.tryFrom "post_bind4" =
      Except.ok CgroupSockAttachType.postBind4 ∧
    CgroupSockAttachType.tryFrom "post_bind6" =
      Except.ok CgroupSockAttachType.postBind6 ∧
    CgroupSockAttachType.tryFrom "sock_create" =
      Except.ok CgroupSockAttachType.sockCreate ∧
    CgroupSockAttachType.tryFrom "sock_release" =
      Except.ok CgroupSockAttachType.sockRelease ∧
    (s ≠ "post_bind4" → s ≠ "post_bind6" → s ≠ "sock_create" →
      s ≠ "sock_release" →
      CgroupSockAttachType.tryFrom s = Except.error ⟨s⟩) ∧
    CgroupSockAttachType.default = CgroupSockAttachType.sockCreate := by
  refine ⟨by decide, by decide, by decide, by decide, ?_, rfl⟩
  intro h1 h2 h3 h4
  unfold CgroupSockAttachType.tryFrom
  split <;> simp_all

/-- Witness for C8: the string "tc" is none of the four attach types and
yields the error carrying it. -/
theorem cgroup_sock_try_from_spec_witness :
    CgroupSockAttachType.tryFrom "tc" = Except.error ⟨"tc"⟩ ∧
    CgroupSockAttachType.default = CgroupSockAttachType.sockCreate :=
  ⟨(cgroup_sock_try_from_spec "tc").2.2.2.2.1 (by decide) (by decide)
      (by decide) (by decide),
    (cgroup_sock_try_from_spec "tc").2.2.2.2.2⟩

/-- One iterator step on a non-empty trace. -/
theorem runLpmTrieKeys_cons {K : Type} (map : MapData)
    (st : LpmTrieKeys K) (r : SysNextKey K) (rest : List (SysNextKey K)) :
    runLpmTrieKeys map st (r :: rest) =
      (lpmTrieKeysNext st map r).1 ::
        runLpmTrieKeys map (lpmTrieKeysNext st map r).2 rest := rfl

/-- A trace of the iterator yields at most one Err: none once the error flag
is set, at most one from a fresh state. -/
theorem countErrs_le (K : Type) (map : MapData) :
    ∀ (resps : List (SysNextKey K)) (st : LpmTrieKeys K),
      countErrs (runLpmTrieKeys map st resps) ≤ if st.err then 0 else 1 := by
  intro resps
  induction resps with
  | nil =>
    intro st
    show (0 : Nat) ≤ _
    split <;> omega
  | cons r rest ih =>
    intro st
    rw [runLpmTrieKeys_cons]
    by_cases herr : st.err
    · have hstep : lpmTrieKeysNext st map r = (none, st) := by
        unfold lpmTrieKeysNext
        rw [if_pos herr]
      rw [hstep]
      show countErrs (runLpmTrieKeys map st rest) ≤ _
      exact ih st
    · rw [if_neg herr]
      cases hfd : map.fdOrErr with
      | error e =>
        have hstep : lpmTrieKeysNext st map r =
            (some (.error e), { st with err := true }) := by
          unfold lpmTrieKeysNext
          rw [if_neg herr, hfd]
        rw [hstep]
        show countErrs
            (runLpmTrieKeys map { st with err := true } rest) + 1 ≤ 1
        have h2 := ih { st with err := true }
        simp at h2
        omega
      | ok fd =>
        cases r with
        | nextKey k =>
          have hstep : lpmTrieKeysNext st map (SysNextKey.nextKey k) =
              (some (.ok k), { st with key := k }) := by
            unfold lpmTrieKeysNext
            rw [if_neg herr, hfd]
          rw [hstep]
          show countErrs (runLpmTrieKeys map { st with key := k } rest) ≤ 1
          have h2 := ih { st with key := k }
          rw [show ({ st with key := k } : LpmTrieKeys K).err = st.err
            from rfl, if_neg herr] at h2
          exact h2
        | noMoreKeys =>
          have hstep : lpmTrieKeysNext st map SysNextKey.noMoreKeys =
              (none, st) := by
            unfold lpmTrieKeysNext
            rw [if_neg herr, hfd]
          rw [hstep]
          show countErrs (runLpmTrieKeys map st rest) ≤ 1
          have h2 := ih st
          rw [if_neg herr] at h2
          exact h2
        | sysError errno =>
          have hstep : lpmTrieKeysNext st map (SysNextKey.sysError errno) =
              (some (.error (.syscallError "bpf_map_get_next_key" errno)),
                { st with err := true }) := by
            unfold lpmTrieKeysNext
            rw [if_neg herr, hfd]
          rw [hstep]
          show countErrs
              (runLpmTrieKeys map { st with err := true } rest) + 1 ≤ 1
          have h2 := ih { st with err := true }
          simp at h2
          omega

/-- C9: the LpmTrieKeys iterator is fused on error: once the error flag is
set every call returns None; any call that yields an Err leaves the flag
set; no further key from the syscall terminates the iteration; and any trace
of calls yields at most one Err. -/
theorem lpm_trie_keys_fused (K : Type) (map : MapData)
    (st : LpmTrieKeys K) (resp : SysNextKey K) :
    (st.err = true → lpmTrieKeysNext st map resp = (none, st)) ∧
    (∀ e, (lpmTrieKeysNext st map resp).1 = some (Except.error e) →
        (lpmTrieKeysNext st map resp).2.err = true) ∧
    (st.err = false → ∀ fd, map.fd = some fd →
        lpmTrieKeysNext st map SysNextKey.noMoreKeys = (none, st)) ∧
    (∀ resps : List (SysNextKey K),
        countErrs (runLpmTrieKeys map st resps) ≤ 1) := by
  refine ⟨?_, ?_, ?_, ?_⟩
  · intro herr
    unfold lpmTrieKeysNext
    rw [if_pos herr]
  · intro e
    by_cases herr : st.err
    · have hstep : lpmTrieKeysNext st map resp = (none, st) := by
        unfold lpmTrieKeysNext
        rw [if_pos herr]
      rw [hstep]
      intro h
      exact Option.noConfusion h
    · cases hfd : map.fdOrErr with
      | error e2 =>
        have hstep : lpmTrieKeysNext st map resp =
            (some (.error e2), { st with err := true }) := by
          unfold lpmTrieKeysNext
          rw [if_neg herr, hfd]
        rw [hstep]
        intro _
        rfl
      | ok fd =>
        cases resp with
        | nextKey k =>
          have hstep : lpmTrieKeysNext st map (SysNextKey.nextKey k) =
              (some (.ok k), { st with key := k }) := by
            unfold lpmTrieKeysNext
            rw [if_neg herr, hfd]
          rw [hstep]
          intro h
          injection h with h2
          exact Except.noConfusion h2
        | noMoreKeys =>
          have hstep : lpmTrieKeysNext st map SysNextKey.noMoreKeys =
              (none, st) := by
            unfold lpmTrieKeysNext
            rw [if_neg herr, hfd]
          rw [hstep]
          intro h
          exact Option.noConfusion h
        | sysError errno =>
          have hstep : lpmTrieKeysNext st map (SysNextKey.sysError errno) =
              (some (.error (.syscallError "bpf_map_get_next_key" errno)),
                { st with err := true }) := by
            unfold lpmTrieKeysNext
            rw [if_neg herr, hfd]
          rw [hstep]
          intro _
          rfl
  · intro herr fd hfd
    unfold lpmTrieKeysNext
    rw [if_neg (by rw [herr]; exact Bool.false_ne_true)]
    have hok : map.fdOrErr = Except.ok fd := by
      unfold MapData.fdOrErr
      rw [hfd]
    rw [hok]
  · intro resps
    have h := countErrs_le K map resps st
    split at h <;> omega

/-- Witness for C9: on a map with fd 3, a call in the error state returns
None; a fresh call hitting no-more-keys returns None; a trace with one
failing syscall yields at most one Err. -/
theorem lpm_trie_keys_fused_witness :
    lpmTrieKeysNext (K := Nat) ⟨true, ⟨16, 0⟩⟩ ⟨some 3, false, none⟩
      (SysNextKey.nextKey ⟨24, 5⟩) = (none, ⟨true, ⟨16, 0⟩⟩) ∧
    lpmTrieKeysNext (K := Nat) ⟨false, ⟨16, 0⟩⟩ ⟨some 3, false, none⟩
      SysNextKey.noMoreKeys = (none, ⟨false, ⟨16, 0⟩⟩) ∧
    countErrs (runLpmTrieKeys (K := Nat) ⟨some 3, false, none⟩ ⟨false, ⟨16, 0⟩⟩
      [SysNextKey.sysError 14, SysNextKey.nextKey ⟨24, 5⟩]) ≤ 1 :=
  ⟨(lpm_trie_keys_fused Nat ⟨some 3, false, none⟩ ⟨true, ⟨16, 0⟩⟩
      (SysNextKey.nextKey ⟨24, 5⟩)).1 rfl,
    (lpm_trie_keys_fused Nat ⟨some 3, false, none⟩ ⟨false, ⟨16, 0⟩⟩
      SysNextKey.noMoreKeys).2.2.1 rfl 3 rfl,
    (lpm_trie_keys_fused Nat ⟨some 3, false, none⟩ ⟨false, ⟨16, 0⟩⟩
      SysNextKey.noMoreKeys).2.2.2
      [SysNextKey.sysError 14, SysNextKey.nextKey ⟨24, 5⟩]⟩

/-- C10: on a created map, `LpmTrie::get` returns KeyNotFound exactly when
the lookup succeeds without a value, a syscall failure maps to SyscallError
"bpf_map_lookup_elem" carrying the io error, and Ok(value) is returned
exactly when the lookup found that value. -/
theorem lpm_trie_get_spec (V : Type) (map : MapData) (fd : Int)
    (resp : SysLookup V) (hfd : map.fd = some fd) :
    (lpmTrieGet map resp = Except.error MapError.keyNotFound ↔
      resp = SysLookup.notFound) ∧
    (∀ errno, resp = SysLookup.sysError errno →
      lpmTrieGet map resp =
        Except.error (MapError.syscallError "bpf_map_lookup_elem" errno)) ∧
    (∀ v, lpmTrieGet map resp = Except.ok v ↔ resp = SysLookup.found v) := by
  have hok : map.fdOrErr = Except.ok fd := by
    unfold MapData.fdOrErr
    rw [hfd]
  have hget : lpmTrieGet map resp =
      match resp with
      | .found v => Except.ok v
      | .notFound => Except.error MapError.keyNotFound
      | .sysError errno =>
        Except.error (MapError.syscallError "bpf_map_lookup_elem" errno) := by
    unfold lpmTrieGet
    rw [hok]
  refine ⟨?_, ?_, ?_⟩
  · cases resp <;> simp [hget]
  · intro errno he
    subst he
    rw [hget]
  · intro v
    cases resp <;> simp [hget]

/-- Witness for C10: on a map with fd 42, a missing value yields
KeyNotFound, a syscall error EFAULT-like code yields SyscallError, and a
found value is returned. -/
theorem lpm_trie_get_spec_witness :
    lpmTrieGet (V := Int) ⟨some 42, false, none⟩ SysLookup.notFound =
      Except.error MapError.keyNotFound ∧
    lpmTrieGet (V := Int) ⟨some 42, false, none⟩ (SysLookup.sysError 14) =
      Except.error (MapError.syscallError "bpf_map_lookup_elem" 14) ∧
    lpmTrieGet (V := Int) ⟨some 42, false, none⟩ (SysLookup.found 7) =
      Except.ok 7 :=
  ⟨(lpm_trie_get_spec Int ⟨some 42, false, none⟩ 42 SysLookup.notFound
      rfl).1.mpr rfl,
    (lpm_trie_get_spec Int ⟨some 42, false, none⟩ 42 (SysLookup.sysError 14)
      rfl).2.1 14 rfl,
    (lpm_trie_get_spec Int ⟨some 42, false, none⟩ 42 (SysLookup.found 7)
      rfl).2.2 7 |>.mpr rfl⟩

end Aya
